import Mathlib

/-!
Verification development for the Budget-It personal-finance calculation core.

The TypeScript sources are shallowly embedded:
JavaScript numbers are modelled as exact rationals (`ℚ`), arrays as lists,
and `Array.prototype.sort` (stable) as `List.insertionSort`.
Calendar dates are abstracted to integer day counts (for transactions) and
month indices (for payoff schedules); the display-only ISO date strings are
not modelled.
-/

namespace BudgetIt

/-! ## Debt payoff engine (src/utils/debtPayoff.ts) -/

/-- Embedding of the `Account` fields used by the debt payoff engine
(`interestRate || 0` and `minimumPayment || 0` in the source are modelled by
plain rational fields, undefined being the caller's 0). -/
structure Account where
  id : String
  name : String
  balance : ℚ
  interestRate : ℚ
  minimumPayment : ℚ
deriving DecidableEq

/-- Embedding of `PaymentSchedule`; the ISO `date` string (display only) is
abstracted away, `month` is kept. -/
structure PaymentSchedule where
  month : Nat
  payment : ℚ
  principal : ℚ
  interest : ℚ
  balance : ℚ
deriving DecidableEq

/-- Embedding of `DebtPayoffSchedule`; `payoffDate` is the month number at
which the balance first reached 0 (`none` models the initial empty string). -/
structure DebtPayoffSchedule where
  accountId : String
  accountName : String
  payments : List PaymentSchedule
  totalInterest : ℚ
  payoffDate : Option Nat
deriving DecidableEq

inductive Strategy where
  | avalanche
  | snowball
deriving DecidableEq

/-- Embedding of `DebtPayoffResult`. The source's `schedules` is a sparse
JavaScript array (a debt that is never visited leaves a hole), modelled as
`Option` entries up to the array's `length` (one past the last assigned
index). `totalMonths` is a JavaScript number that is NaN when the sparse
array has a hole below its length (see `maxScheduleMonths`); `none` models
that NaN. -/
structure DebtPayoffResult where
  strategy : Strategy
  debts : List (Option DebtPayoffSchedule)
  totalMonths : Option ℚ
  totalInterest : ℚ
  totalPaid : ℚ
deriving DecidableEq

/-- Per-debt simulation cell: the debt, its current balance
(`currentBalances[index]`) and its schedule so far (`schedules[index]`,
`none` while the slot is still a hole). -/
structure SimCell where
  debt : Account
  balance : ℚ
  sched : Option DebtPayoffSchedule
deriving DecidableEq

/-- Builds the month's extra pool: the caller's extra payment plus the
minimum payments of every already-paid-off debt (source lines 74-79). -/
def freedExtra (extraPayment : ℚ) (cells : List SimCell) : ℚ :=
  cells.foldl (fun acc c => if c.balance ≤ 0 then acc + c.debt.minimumPayment else acc)
    extraPayment

/-- Visits one debt for one month (body of the `debts.forEach` at source
lines 81-139): returns the updated cell, the remaining pool, and the
interest / payment contributed to the grand totals. -/
def visitCell (month : Nat) (pool : ℚ) (c : SimCell) : SimCell × ℚ × ℚ × ℚ :=
  if c.balance ≤ 0 then (c, pool, 0, 0) else
  let balance := c.balance
  let rate := c.debt.interestRate / 100 / 12
  let minPayment := c.debt.minimumPayment
  let interest := balance * rate
  let payment0 := if 0 < pool then minPayment + pool else minPayment
  let pool1 : ℚ := if 0 < pool then 0 else pool
  let maxPayment := balance + interest
  let payment := if maxPayment < payment0 then maxPayment else payment0
  let pool2 := if maxPayment < payment0 then pool1 + (payment0 - maxPayment) else pool1
  let principal := payment - interest
  let newBalance := max 0 (balance - principal)
  let sched0 :=
    match c.sched with
    | some s => s
    | none =>
      { accountId := c.debt.id, accountName := c.debt.name, payments := [],
        totalInterest := 0, payoffDate := none }
  let entry : PaymentSchedule :=
    { month := month, payment := payment, principal := principal,
      interest := interest, balance := newBalance }
  let sched1 :=
    { sched0 with payments := sched0.payments ++ [entry],
                  totalInterest := sched0.totalInterest + interest }
  let sched2 :=
    if newBalance = 0 ∧ sched1.payoffDate = none then
      { sched1 with payoffDate := some month }
    else sched1
  ({ c with balance := newBalance, sched := some sched2 }, pool2, interest, payment)

/-- Visits the debts in priority order, threading the extra pool through the
overpayment cascade; accumulates the month's interest and payment totals. -/
def visitCells (month : Nat) (pool : ℚ) : List SimCell → List SimCell × ℚ × ℚ × ℚ
  | [] => ([], pool, 0, 0)
  | c :: cs =>
    let r := visitCell month pool c
    let rest := visitCells month r.2.1 cs
    (r.1 :: rest.1, rest.2.1, r.2.2.1 + rest.2.2.1, r.2.2.2 + rest.2.2.2)

/-- Running state of the payoff simulation. -/
structure SimState where
  cells : List SimCell
  totalInterest : ℚ
  totalPaid : ℚ
deriving DecidableEq

/-- One iteration of the `while` loop body (one calendar month). -/
def monthStep (extraPayment : ℚ) (month : Nat) (st : SimState) : SimState :=
  let pool := freedExtra extraPayment st.cells
  let r := visitCells month pool st.cells
  { cells := r.1, totalInterest := st.totalInterest + r.2.2.1,
    totalPaid := st.totalPaid + r.2.2.2 }

/-- Guard `currentBalances.some((b) => b > 0)`. -/
def anyAlive (cells : List SimCell) : Bool :=
  cells.any (fun c => 0 < c.balance)

/-- The `while (some balance > 0 && month < 600)` loop; `fuel` counts the
months still allowed by the 600-month safety ceiling, `month` the months
already simulated. -/
def simLoop (extraPayment : ℚ) : Nat → Nat → SimState → SimState
  | 0, _, st => st
  | fuel + 1, month, st =>
    if anyAlive st.cells then
      simLoop extraPayment fuel (month + 1) (monthStep extraPayment (month + 1) st)
    else st

/-- The sparse `schedules` array as the JavaScript runtime sees it: its
`length` is one past the last index actually assigned, so the slots of
debts after the last visited one lie beyond `length` and do not exist,
while holes below `length` remain. Modelled by dropping the trailing
`none` entries of the per-debt slot list. -/
def jsSparseTrim (sched : List (Option DebtPayoffSchedule)) :
    List (Option DebtPayoffSchedule) :=
  (sched.reverse.dropWhile Option.isNone).reverse

/-- Source lines 142-144:
`schedules.length > 0 ? Math.max(...schedules.map((s) => s.payments.length)) : 0`.
`map` over the sparse array keeps its holes, and spreading the mapped array
passes `undefined` at each hole, which `Math.max` coerces to NaN, so the
result is NaN (`none`) as soon as a hole lies below `schedules.length`.
Without holes the arguments are the (nonnegative) schedule lengths, so
folding `max` from 0 is exactly their maximum. -/
def maxScheduleMonths (sched : List (Option DebtPayoffSchedule)) : Option ℚ :=
  if sched.isEmpty then some 0
  else if sched.all (·.isSome) then
    some ((sched.filterMap id).foldl (fun m s => max m (s.payments.length : ℚ)) 0)
  else none

/-- Embedding of `calculatePayoffSchedule` (source lines 53-153). -/
def calculatePayoffSchedule (debts : List Account) (extraPayment : ℚ)
    (strategy : Strategy) : DebtPayoffResult :=
  let init : SimState :=
    { cells := debts.map (fun d => { debt := d, balance := |d.balance|, sched := none }),
      totalInterest := 0, totalPaid := 0 }
  let final := simLoop extraPayment 600 0 init
  let sched := jsSparseTrim (final.cells.map (·.sched))
  { strategy := strategy
    debts := sched
    totalMonths := maxScheduleMonths sched
    totalInterest := final.totalInterest
    totalPaid := final.totalPaid }

/-- Embedding of `calculateAvalanche`: stable sort by interest rate
descending, then run the schedule. -/
def calculateAvalanche (liabilities : List Account) (extraPayment : ℚ) :
    DebtPayoffResult :=
  calculatePayoffSchedule
    (List.insertionSort (fun a b => b.interestRate ≤ a.interestRate) liabilities)
    extraPayment .avalanche

/-- Embedding of `calculateSnowball`: stable sort by absolute balance
ascending, then run the schedule. -/
def calculateSnowball (liabilities : List Account) (extraPayment : ℚ) :
    DebtPayoffResult :=
  calculatePayoffSchedule
    (List.insertionSort (fun a b => |a.balance| ≤ |b.balance|) liabilities)
    extraPayment .snowball

/-- Embedding of the record returned by `compareStrategies`. `timeSavings`
is a JavaScript subtraction of the two `totalMonths` numbers, so it is NaN
(`none`) as soon as either side is NaN. -/
structure StrategyComparison where
  avalanche : DebtPayoffResult
  snowball : DebtPayoffResult
  interestSavings : ℚ
  timeSavings : Option ℚ
deriving DecidableEq

/-- Embedding of `compareStrategies` (source lines 158-176). -/
def compareStrategies (liabilities : List Account) (extraPayment : ℚ) :
    StrategyComparison :=
  let avalanche := calculateAvalanche liabilities extraPayment
  let snowball := calculateSnowball liabilities extraPayment
  { avalanche := avalanche
    snowball := snowball
    interestSavings := snowball.totalInterest - avalanche.totalInterest
    timeSavings :=
      match snowball.totalMonths, avalanche.totalMonths with
      | some s, some a => some (s - a)
      | _, _ => none }

/-- Length of a cell's schedule so far (0 for a hole). -/
def schedLen (c : SimCell) : Nat :=
  match c.sched with
  | some s => s.payments.length
  | none => 0

/-! ## Investment projection (src/utils/investmentCalc.ts) -/

/-- Embedding of the `InvestmentProjection` record. -/
structure InvestmentProjection where
  futureValue : ℚ
  totalContributions : ℚ
  investmentGains : ℚ
  realValue : ℚ
deriving DecidableEq

/-- Embedding of `calculateInvestmentProjection` (source lines 13-52). -/
def calculateInvestmentProjection (portfolioValue monthlyContribution annualReturn : ℚ)
    (years : ℕ) (inflationRate : ℚ) : InvestmentProjection :=
  let monthlyRate := annualReturn / 100 / 12
  let months := years * 12
  let futureValue :=
    if monthlyRate = 0 then portfolioValue + monthlyContribution * (months : ℚ)
    else
      let fv0 := portfolioValue * (1 + monthlyRate) ^ months
      if 0 < monthlyContribution then
        fv0 + monthlyContribution * (((1 + monthlyRate) ^ months - 1) / monthlyRate)
      else fv0
  let totalContributions := portfolioValue + monthlyContribution * (months : ℚ)
  let investmentGains := futureValue - totalContributions
  let realValue :=
    if inflationRate = 0 then futureValue
    else futureValue / (1 + inflationRate / 100) ^ years
  { futureValue := futureValue, totalContributions := totalContributions,
    investmentGains := investmentGains, realValue := realValue }

/-! ## Monte Carlo simulation (src/utils/monteCarloSimulation.ts) -/

/-- Transcendental `Math` primitives used by the simulator (`Math.exp`,
`Math.log`, `Math.sqrt`, `Math.cos`, `Math.PI`). They have no exact rational
counterpart, so the embedding abstracts over them: the theorems below hold
for every interpretation of these operations. -/
structure MathPrims where
  expQ : ℚ → ℚ
  logQ : ℚ → ℚ
  sqrtQ : ℚ → ℚ
  cosQ : ℚ → ℚ
  piQ : ℚ

/-- Embedding of `MonteCarloParams`. -/
structure MonteCarloParams where
  initialValue : ℚ
  monthlyContribution : ℚ
  annualReturn : ℚ
  annualVolatility : ℚ
  inflationRate : ℚ
  years : ℕ
  numSimulations : ℕ

/-- Embedding of `YearlyPercentiles`. -/
structure YearlyPercentiles where
  year : ℕ
  p10 : ℚ
  p25 : ℚ
  p50 : ℚ
  p75 : ℚ
  p90 : ℚ
  contributions : ℚ
deriving DecidableEq

/-- Embedding of `MonteCarloResult`. -/
structure MonteCarloResult where
  yearlyData : List YearlyPercentiles
  finalValues : List ℚ
  medianFinal : ℚ
  meanFinal : ℚ
  probabilityOfDoubling : ℚ
  probabilityOfLoss : ℚ
deriving DecidableEq

/-- Index of the first stream position at or after `i` whose draw is
nonzero: the `while (u1 === 0) u1 = rng()` re-draw of `boxMullerNormal`.
The JS loop diverges on an all-zero stream; the model gives up after `fuel`
draws (no theorem below depends on the drawn values). -/
def skipZeros (rng : ℕ → ℚ) : ℕ → ℕ → ℕ
  | i, 0 => i
  | i, fuel + 1 => if rng i = 0 then skipZeros rng (i + 1) fuel else i

/-- Embedding of `boxMullerNormal`, reading its two uniform draws from the
stream `rng` starting at cursor `i`; returns the variate and the advanced
cursor (the source's ambient `Math.random` is this explicit stream). -/
def boxMullerNormal (P : MathPrims) (rng : ℕ → ℚ) (i : ℕ) : ℚ × ℕ :=
  let i1 := skipZeros rng i 1000000
  let u1 := rng i1
  let u2 := rng (i1 + 1)
  (P.sqrtQ (-2 * P.logQ u1) * P.cosQ (2 * P.piQ * u2), i1 + 2)

/-- Inner month loop of `simulatePath`: each month draws a log-normal
return, updates the balance and floors it at 0. -/
def simulateMonths (P : MathPrims) (rng : ℕ → ℚ)
    (monthlyContribution monthlyLogMean monthlyLogStd : ℚ) :
    ℕ → ℚ × ℕ → ℚ × ℕ
  | 0, s => s
  | m + 1, (balance, i) =>
    let z := boxMullerNormal P rng i
    let monthlyReturn := P.expQ (monthlyLogMean + monthlyLogStd * z.1) - 1
    let balance1 := balance * (1 + monthlyReturn) + monthlyContribution
    let balance2 := if balance1 < 0 then 0 else balance1
    simulateMonths P rng monthlyContribution monthlyLogMean monthlyLogStd m (balance2, z.2)

/-- Outer year loop of `simulatePath`: collects the end-of-year balances. -/
def simulateYears (P : MathPrims) (rng : ℕ → ℚ)
    (monthlyContribution monthlyLogMean monthlyLogStd : ℚ) :
    ℕ → ℚ × ℕ → List ℚ × ℕ
  | 0, s => ([], s.2)
  | y + 1, s =>
    let s1 := simulateMonths P rng monthlyContribution monthlyLogMean monthlyLogStd 12 s
    let rest := simulateYears P rng monthlyContribution monthlyLogMean monthlyLogStd y s1
    (s1.1 :: rest.1, rest.2)

/-- Embedding of `simulatePath` (source lines 50-74); also returns the RNG
cursor so that consecutive paths consume the shared stream sequentially. -/
def simulatePath (P : MathPrims) (rng : ℕ → ℚ)
    (initialValue monthlyContribution monthlyLogMean monthlyLogStd : ℚ)
    (years : ℕ) (i : ℕ) : List ℚ × ℕ :=
  simulateYears P rng monthlyContribution monthlyLogMean monthlyLogStd years
    (initialValue, i)

/-- Embedding of `computeMonthlyLogParams` (source lines 80-95). -/
def computeMonthlyLogParams (P : MathPrims) (annualReturn annualVolatility : ℚ) :
    ℚ × ℚ :=
  let r := annualReturn / 100
  let sigma := annualVolatility / 100
  let annualLogMean := P.logQ (1 + r) - sigma * sigma / 2
  (annualLogMean / 12, sigma / P.sqrtQ 12)

/-- Embedding of `percentile` (source lines 101-113): linear interpolation
between nearest ranks of an ascending-sorted array. -/
def percentile (sorted : List ℚ) (p : ℚ) : ℚ :=
  if sorted.length = 0 then 0
  else if sorted.length = 1 then sorted.getD 0 0
  else
    let index := p / 100 * ((sorted.length : ℚ) - 1)
    let lower := ⌊index⌋
    let upper := ⌈index⌉
    if lower = upper then sorted.getD lower.toNat 0
    else
      let fraction := index - (lower : ℚ)
      sorted.getD lower.toNat 0 +
        fraction * (sorted.getD upper.toNat 0 - sorted.getD lower.toNat 0)

/-- Ascending numeric sort `.sort((a, b) => a - b)`. -/
def sortAsc (l : List ℚ) : List ℚ :=
  List.insertionSort (· ≤ ·) l

/-- Runs `numSimulations` consecutive paths (the `for (sim ...)` loop at
source lines 140-143), threading the RNG cursor. -/
def runPaths (P : MathPrims) (rng : ℕ → ℚ)
    (initialValue monthlyContribution monthlyLogMean monthlyLogStd : ℚ)
    (years : ℕ) : ℕ → ℕ → List (List ℚ)
  | 0, _ => []
  | n + 1, i =>
    let r := simulatePath P rng initialValue monthlyContribution monthlyLogMean
      monthlyLogStd years i
    r.1 :: runPaths P rng initialValue monthlyContribution monthlyLogMean
      monthlyLogStd years n r.2

/-- Twelve-fold iteration of `balance * (1 + monthlyRate) + monthlyContribution`
is the inner month loop of `runDeterministicSimulation`. -/
def compoundMonths (monthlyRate monthlyContribution : ℚ) : ℕ → ℚ → ℚ
  | 0, b => b
  | m + 1, b =>
    compoundMonths monthlyRate monthlyContribution m
      (b * (1 + monthlyRate) + monthlyContribution)

/-- Year loop of `runDeterministicSimulation`: `rem` years still to run,
`y` the calendar year of the next iteration (starting at 1), `b` the current
balance. Returns the yearly bands and the final balance. -/
def detYearLoop (monthlyRate monthlyContribution initialValue inflationRate : ℚ) :
    ℕ → ℕ → ℚ → List YearlyPercentiles × ℚ
  | 0, _, b => ([], b)
  | rem + 1, y, b =>
    let b1 := compoundMonths monthlyRate monthlyContribution 12 b
    let contributions := initialValue + monthlyContribution * 12 * (y : ℚ)
    let value :=
      if 0 < inflationRate then b1 / (1 + inflationRate / 100) ^ y else b1
    let contribOut :=
      if 0 < inflationRate then contributions / (1 + inflationRate / 100) ^ y
      else contributions
    let band : YearlyPercentiles :=
      { year := y, p10 := value, p25 := value, p50 := value, p75 := value,
        p90 := value, contributions := contribOut }
    let rest := detYearLoop monthlyRate monthlyContribution initialValue inflationRate
      rem (y + 1) b1
    (band :: rest.1, rest.2)

/-- Embedding of `runDeterministicSimulation` (source lines 202-249). -/
def runDeterministicSimulation
    (initialValue monthlyContribution annualReturn inflationRate : ℚ)
    (years : ℕ) : MonteCarloResult :=
  let monthlyRate := annualReturn / 100 / 12
  let r := detYearLoop monthlyRate monthlyContribution initialValue inflationRate
    years 1 initialValue
  let balance := r.2
  let totalContributions := initialValue + monthlyContribution * 12 * (years : ℚ)
  { yearlyData := r.1
    finalValues := [balance]
    medianFinal := balance
    meanFinal := balance
    probabilityOfDoubling := if 2 * totalContributions ≤ balance then 1 else 0
    probabilityOfLoss := if balance < totalContributions then 1 else 0 }

/-- Embedding of `runMonteCarloSimulation` (source lines 118-197), over an
abstract interpretation `P` of the `Math` primitives and a uniform stream
`rng` (the source's `Math.random`). Division by zero in ℚ is 0, which only
matters for the degenerate `numSimulations = 0` input where JS would yield
NaN statistics. -/
def runMonteCarloSimulation (P : MathPrims) (rng : ℕ → ℚ)
    (params : MonteCarloParams) : MonteCarloResult :=
  if params.annualVolatility = 0 then
    runDeterministicSimulation params.initialValue params.monthlyContribution
      params.annualReturn params.inflationRate params.years
  else
    let mp := computeMonthlyLogParams P params.annualReturn params.annualVolatility
    let allPaths := runPaths P rng params.initialValue params.monthlyContribution
      mp.1 mp.2 params.years params.numSimulations 0
    let yearlyData0 := (List.range params.years).map (fun y =>
      let valuesAtYear := sortAsc (allPaths.map (fun path => path.getD y 0))
      { year := y + 1
        p10 := percentile valuesAtYear 10
        p25 := percentile valuesAtYear 25
        p50 := percentile valuesAtYear 50
        p75 := percentile valuesAtYear 75
        p90 := percentile valuesAtYear 90
        contributions := params.initialValue +
          params.monthlyContribution * 12 * ((y : ℚ) + 1) } )
    let finalValues := sortAsc (allPaths.map (fun path => path.getD (params.years - 1) 0))
    let totalContributions := params.initialValue +
      params.monthlyContribution * 12 * (params.years : ℚ)
    let meanFinal := finalValues.foldl (· + ·) 0 / (finalValues.length : ℚ)
    let medianFinal := percentile finalValues 50
    let probabilityOfDoubling :=
      ((finalValues.filter (fun v => 2 * totalContributions ≤ v)).length : ℚ) /
        (finalValues.length : ℚ)
    let probabilityOfLoss :=
      ((finalValues.filter (fun v => v < totalContributions)).length : ℚ) /
        (finalValues.length : ℚ)
    let yearlyData :=
      if 0 < params.inflationRate then
        yearlyData0.map (fun d =>
          let factor := (1 + params.inflationRate / 100) ^ d.year
          { d with p10 := d.p10 / factor, p25 := d.p25 / factor,
                   p50 := d.p50 / factor, p75 := d.p75 / factor,
                   p90 := d.p90 / factor,
                   contributions := d.contributions / factor })
      else yearlyData0
    { yearlyData := yearlyData
      finalValues := finalValues
      medianFinal := medianFinal
      meanFinal := meanFinal
      probabilityOfDoubling := probabilityOfDoubling
      probabilityOfLoss := probabilityOfLoss }

/-! ## Portfolio allocation (src/utils/portfolioAllocation.ts) -/

/-- Embedding of `AssetAllocation`; the display `description` string is not
modelled. -/
structure AssetAllocation where
  assetClass : String
  percentage : ℚ
  amount : ℚ
deriving DecidableEq

/-- Risk levels of `determineAllocation`. -/
inductive RiskLevel where
  | conservative
  | moderate
  | balanced
  | growth
  | aggressive
deriving DecidableEq

/-- Result of `determineAllocation`; the `rationale` display strings are not
modelled. -/
structure AllocationSplit where
  stockPercentage : ℚ
  bondPercentage : ℚ
  cashPercentage : ℚ
  riskLevel : RiskLevel
deriving DecidableEq

/-- JavaScript `Math.round`: round half toward positive infinity. -/
def jsRound (x : ℚ) : ℤ := ⌊x + 1 / 2⌋

/-- Source `Math.round(x / 5) * 5` (round to the nearest multiple of 5). -/
def roundTo5 (x : ℚ) : ℚ := (jsRound (x / 5) : ℚ) * 5

/-- Embedding of `determineAllocation` (source lines 123-223). `age` and
`yearsUntilWithdrawal` are the integer year differences the source computes
with `differenceInYears`. -/
def determineAllocation (age yearsUntilWithdrawal : ℤ) (withdrawalRate : ℚ) :
    AllocationSplit :=
  let base : ℚ × ℚ × ℚ × RiskLevel :=
    if 20 < yearsUntilWithdrawal then (90, 10, 0, .aggressive)
    else if 15 < yearsUntilWithdrawal then (80, 20, 0, .growth)
    else if 10 < yearsUntilWithdrawal then (70, 25, 5, .balanced)
    else if 5 < yearsUntilWithdrawal then (60, 30, 10, .moderate)
    else if 0 < yearsUntilWithdrawal then (50, 35, 15, .moderate)
    else
      let stock : ℚ := max (110 - (age : ℚ)) 40
      let bond : ℚ := min (60 - stock) 50
      (stock, bond, 100 - stock - bond, .conservative)
  let adjusted : ℚ × ℚ × ℚ :=
    if 5 < withdrawalRate then
      let adjustment := min 10 (withdrawalRate - 5)
      (max (base.1 - adjustment) 30, base.2.1 + adjustment / 2,
        base.2.2.1 + adjustment / 2)
    else (base.1, base.2.1, base.2.2.1)
  let stockRounded := roundTo5 adjusted.1
  let bondRounded := roundTo5 adjusted.2.1
  { stockPercentage := stockRounded
    bondPercentage := bondRounded
    cashPercentage := 100 - stockRounded - bondRounded
    riskLevel := base.2.2.2 }

/-- Embedding of `PortfolioRecommendation`, restricted to the fields the
claims concern: the ETF recommendation list (static table lookups) and the
rationale display strings are not modelled. -/
structure PortfolioRecommendation where
  allocations : List AssetAllocation
  riskLevel : RiskLevel
  withdrawalRate : ℚ
  isSustainable : Bool
deriving DecidableEq

/-- Embedding of `calculatePortfolioAllocation` (source lines 45-118). The
two `differenceInYears` calls on the birthdate and first-withdrawal date are
abstracted to their integer results `age` and `yearsUntilWithdrawal`. -/
def calculatePortfolioAllocation (age yearsUntilWithdrawal : ℤ)
    (annualWithdrawal portfolioAmount : ℚ) : PortfolioRecommendation :=
  let withdrawalRate :=
    if 0 < portfolioAmount then annualWithdrawal / portfolioAmount * 100 else 0
  let split := determineAllocation age yearsUntilWithdrawal withdrawalRate
  let usStockPercentage := split.stockPercentage * (7 / 10)
  let intlStockPercentage := split.stockPercentage * (3 / 10)
  let allocations0 : List AssetAllocation :=
    [{ assetClass := "US Stocks", percentage := usStockPercentage,
       amount := portfolioAmount * (usStockPercentage / 100) },
     { assetClass := "International Stocks", percentage := intlStockPercentage,
       amount := portfolioAmount * (intlStockPercentage / 100) },
     { assetClass := "Bonds", percentage := split.bondPercentage,
       amount := portfolioAmount * (split.bondPercentage / 100) }]
  let allocations :=
    if 0 < split.cashPercentage then
      allocations0 ++
        [{ assetClass := "Cash", percentage := split.cashPercentage,
           amount := portfolioAmount * (split.cashPercentage / 100) }]
    else allocations0
  { allocations := allocations
    riskLevel := split.riskLevel
    withdrawalRate := withdrawalRate
    isSustainable := withdrawalRate ≤ 9 / 2 }

/-! ## Recurring transaction detection (src/unnamed/part_016) -/

/-- Embedding of the `Transaction` fields the detector uses. `date` is an
integer day number, abstracting the ISO date string: `differenceInDays` of
two dates is their difference, and `addWeeks` adds 7 days per week. -/
structure Transaction where
  id : String
  date : ℤ
  description : String
  amount : ℚ
  accountId : String
  categoryId : Option String
deriving DecidableEq

instance : IsTrans Transaction (fun a b => a.date ≤ b.date) :=
  ⟨fun _ _ _ h1 h2 => le_trans h1 h2⟩

/-- The five frequency classes of the detector. -/
inductive Frequency where
  | weekly
  | biweekly
  | monthly
  | quarterly
  | yearly
deriving DecidableEq

/-- Primitives of the detector with no exact counterpart on the abstract
model: `Math.sqrt` on rationals and the calendar-dependent `addMonths` of
date-fns on day numbers. Theorems abstract over their interpretation. -/
structure DetectorPrims where
  sqrtQ : ℚ → ℚ
  addMonthsD : ℤ → ℕ → ℤ

/-- Embedding of `RecurringPattern`. -/
structure RecurringPattern where
  description : String
  frequency : Frequency
  averageAmount : ℚ
  transactions : List Transaction
  confidence : ℚ
  nextOccurrence : ℤ
deriving DecidableEq

/-- JavaScript whitespace (the ASCII cases of the regex `\s`). -/
def isSpaceJS (c : Char) : Bool :=
  c == ' ' || c == '\t' || c == '\n' || c == '\r'

/-- Characters kept by `.replace(/[^a-z\s]/g, '')`. -/
def isKeptChar (c : Char) : Bool :=
  ('a' ≤ c && c ≤ 'z') || isSpaceJS c

/-- Left half of `String.prototype.trim`. -/
def trimLeft (l : List Char) : List Char :=
  l.dropWhile isSpaceJS

/-- Right half of `String.prototype.trim`. -/
def trimRight (l : List Char) : List Char :=
  (l.reverse.dropWhile isSpaceJS).reverse

/-- `String.prototype.trim`. -/
def trimChars (l : List Char) : List Char :=
  trimRight (trimLeft l)

/-- Worker for `.replace(/\s+/g, ' ')`: the flag records whether the
previous character was whitespace (so a run collapses to one space). -/
def collapseWsAux : Bool → List Char → List Char
  | _, [] => []
  | prevWs, c :: cs =>
    if isSpaceJS c then
      if prevWs then collapseWsAux true cs else ' ' :: collapseWsAux true cs
    else c :: collapseWsAux false cs

/-- Step `.replace(/\s+/g, ' ')`. -/
def collapseWs (l : List Char) : List Char :=
  collapseWsAux false l

/-- Embedding of `normalizeDescription`: lowercase, strip digits, strip
non-letter/non-space characters, trim, collapse whitespace runs. -/
def normalizeDescription (desc : String) : String :=
  String.mk
    (collapseWs (trimChars
      (((desc.data.map Char.toLower).filter (fun c => !c.isDigit)).filter isKeptChar)))

/-- Worker for `.split(/\s+/).filter(Boolean)`: maximal non-whitespace
runs, accumulated in reverse in `cur`. -/
def wordsOfAux (cur : List Char) : List Char → List (List Char)
  | [] => if cur.isEmpty then [] else [cur.reverse]
  | c :: cs =>
    if isSpaceJS c then
      if cur.isEmpty then wordsOfAux [] cs else cur.reverse :: wordsOfAux [] cs
    else wordsOfAux (c :: cur) cs

/-- Word list of a description: `.split(/\s+/).filter(Boolean)`. -/
def wordsOf (s : String) : List (List Char) :=
  wordsOfAux [] s.data

/-- Embedding of `areSimilar`: word-set overlap |intersection|/|union|
strictly above 0.6 (the JS `Set`s are modelled by `dedup`). -/
def areSimilar (desc1 desc2 : String) : Bool :=
  let words1 := (wordsOf desc1).dedup
  let words2 := (wordsOf desc2).dedup
  if words1.length = 0 ∨ words2.length = 0 then false
  else
    let intersection := words1.filter (fun w => words2.contains w)
    let union := (words1 ++ words2).dedup
    (6 : ℚ) / 10 < (intersection.length : ℚ) / (union.length : ℚ)

/-- Inserts one transaction into the running group list: the first similar
key wins, otherwise a new group keyed by the normalized description is
appended (source `groupBySimilarDescription` inner loop). -/
def insertIntoGroups (norm : String) (t : Transaction) :
    List (String × List Transaction) → List (String × List Transaction)
  | [] => [(norm, [t])]
  | (k, ts) :: rest =>
    if areSimilar norm k then (k, ts ++ [t]) :: rest
    else (k, ts) :: insertIntoGroups norm t rest

/-- Embedding of `groupBySimilarDescription`; groups are kept in insertion
order (the `Object.entries` enumeration order for these non-index string
keys). Transactions whose description normalizes to the empty string are
skipped. -/
def groupBySimilarDescription (transactions : List Transaction) :
    List (String × List Transaction) :=
  transactions.foldl
    (fun groups txn =>
      let normalized := normalizeDescription txn.description
      if normalized = "" then groups else insertIntoGroups normalized txn groups)
    []

/-- Embedding of `detectFrequency`. -/
def detectFrequency (intervals : List ℤ) : Option Frequency :=
  let avgInterval := (intervals.sum : ℚ) / (intervals.length : ℚ)
  if |avgInterval - 7| ≤ 2 then some .weekly
  else if |avgInterval - 14| ≤ 3 then some .biweekly
  else if |avgInterval - 30| ≤ 5 then some .monthly
  else if |avgInterval - 90| ≤ 15 then some .quarterly
  else if |avgInterval - 365| ≤ 30 then some .yearly
  else none

/-- Embedding of `predictNextOccurrence` (`addWeeks` is exactly 7 days per
week; month-based advances use the abstract calendar primitive). -/
def predictNextOccurrence (P : DetectorPrims) (lastDate : ℤ) :
    Frequency → ℤ
  | .weekly => lastDate + 7
  | .biweekly => lastDate + 14
  | .monthly => P.addMonthsD lastDate 1
  | .quarterly => P.addMonthsD lastDate 3
  | .yearly => P.addMonthsD lastDate 12

/-- Day gaps between consecutive transactions (`differenceInDays` of the
sorted dates). -/
def dateIntervals (l : List Transaction) : List ℤ :=
  (l.tail.zip l).map (fun p => p.1.date - p.2.date)

/-- Per-group body of the `detectRecurringTransactions` loop; `none` models
`continue` (group rejected). The JS `Number.isFinite` guards cannot fail
over exact rationals with at least 2 intervals and are subsumed by the
zero-average check. -/
def patternOfGroup (P : DetectorPrims) (description : String)
    (txns : List Transaction) : Option RecurringPattern :=
  if txns.length < 3 then none
  else
    let sorted := List.insertionSort (fun a b => a.date ≤ b.date) txns
    let intervals := dateIntervals sorted
    match detectFrequency intervals with
    | none => none
    | some frequency =>
      let avgInterval := (intervals.sum : ℚ) / (intervals.length : ℚ)
      if avgInterval = 0 then none
      else
        let variance :=
          (intervals.map (fun iv : ℤ => ((iv : ℚ) - avgInterval) ^ 2)).sum /
            (intervals.length : ℚ)
        let standardDeviation := P.sqrtQ variance
        let confidence := max 0 (1 - standardDeviation / avgInterval)
        if confidence < 1 / 2 then none
        else
          let averageAmount :=
            (sorted.map (fun t => t.amount)).sum / (sorted.length : ℚ)
          let lastDate := ((sorted.getLast?).map (fun t => t.date)).getD 0
          some { description := description
                 frequency := frequency
                 averageAmount := averageAmount
                 transactions := sorted
                 confidence := confidence
                 nextOccurrence := predictNextOccurrence P lastDate frequency }

/-- Embedding of `detectRecurringTransactions` (source lines 16-81). -/
def detectRecurringTransactions (P : DetectorPrims)
    (transactions : List Transaction) : List RecurringPattern :=
  let groups := groupBySimilarDescription transactions
  let patterns := groups.filterMap (fun g => patternOfGroup P g.1 g.2)
  List.insertionSort (fun a b => b.confidence ≤ a.confidence) patterns

/-! ## Theorems -/

theorem schedLen_visitCell (month : Nat) (pool : ℚ) (c : SimCell) :
    schedLen (visitCell month pool c).1 ≤ schedLen c + 1 := by
  unfold visitCell
  split
  · exact Nat.le_succ_of_le (Nat.le_refl _)
  · cases h : c.sched <;> simp only [h, schedLen] <;> split_ifs <;>
      simp [schedLen, List.length_append]

theorem schedLen_visitCells {n : Nat} (month : Nat) (pool : ℚ) (cs : List SimCell)
    (h : ∀ c ∈ cs, schedLen c ≤ n) :
    ∀ c' ∈ (visitCells month pool cs).1, schedLen c' ≤ n + 1 := by
  induction cs generalizing pool with
  | nil => intro c' hc'; simp [visitCells] at hc'
  | cons c cs ih =>
    intro c' hc'
    simp only [visitCells, List.mem_cons] at hc'
    rcases hc' with rfl | hc'
    · exact le_trans (schedLen_visitCell ..)
        (Nat.add_le_add_right (h c (List.mem_cons_self ..)) 1)
    · exact ih _ (fun x hx => h x (List.mem_cons_of_mem _ hx)) c' hc'

theorem schedLen_monthStep {n : Nat} (extraPayment : ℚ) (month : Nat) (st : SimState)
    (h : ∀ c ∈ st.cells, schedLen c ≤ n) :
    ∀ c ∈ (monthStep extraPayment month st).cells, schedLen c ≤ n + 1 := by
  intro c hc
  exact schedLen_visitCells month _ st.cells h c hc

theorem schedLen_simLoop {n : Nat} (extraPayment : ℚ) (fuel month : Nat) (st : SimState)
    (h : ∀ c ∈ st.cells, schedLen c ≤ n) :
    ∀ c ∈ (simLoop extraPayment fuel month st).cells, schedLen c ≤ n + fuel := by
  induction fuel generalizing month st n with
  | zero => simpa using h
  | succ fuel ih =>
    simp only [simLoop]
    split
    · intro c hc
      have := ih (month + 1) (monthStep extraPayment (month + 1) st)
        (schedLen_monthStep extraPayment (month + 1) st h) c hc
      omega
    · intro c hc
      exact le_trans (h c hc) (Nat.le_add_right ..)

theorem mem_of_mem_dropWhile {α : Type} (p : α → Bool) (l : List α) (x : α)
    (hx : x ∈ l.dropWhile p) : x ∈ l := by
  induction l with
  | nil => simp [List.dropWhile] at hx
  | cons a as ih =>
    rw [List.dropWhile_cons] at hx
    split at hx
    · exact List.mem_cons_of_mem _ (ih hx)
    · exact hx

theorem mem_jsSparseTrim {x : Option DebtPayoffSchedule}
    {l : List (Option DebtPayoffSchedule)} (hx : x ∈ jsSparseTrim l) : x ∈ l := by
  unfold jsSparseTrim at hx
  rw [List.mem_reverse] at hx
  exact List.mem_reverse.mp (mem_of_mem_dropWhile _ _ _ hx)

theorem foldl_max_sched_le (B : ℚ) (l : List DebtPayoffSchedule) :
    ∀ a : ℚ, a ≤ B → (∀ x ∈ l, (x.payments.length : ℚ) ≤ B) →
      l.foldl (fun m s => max m (s.payments.length : ℚ)) a ≤ B := by
  induction l with
  | nil => intro a ha _; simpa using ha
  | cons x xs ih =>
    intro a ha h
    simp only [List.foldl_cons]
    exact ih _ (max_le ha (h x (List.mem_cons_self ..)))
      (fun y hy => h y (List.mem_cons_of_mem _ hy))

theorem maxScheduleMonths_le {n : Nat}
    (sched : List (Option DebtPayoffSchedule))
    (h : ∀ s : DebtPayoffSchedule, some s ∈ sched → s.payments.length ≤ n) :
    ∀ m : ℚ, maxScheduleMonths sched = some m → m ≤ (n : ℚ) := by
  intro m hm
  unfold maxScheduleMonths at hm
  split_ifs at hm with h1 h2
  · obtain rfl : (0 : ℚ) = m := Option.some.inj hm
    exact Nat.cast_nonneg n
  · obtain rfl := Option.some.inj hm
    have hb : ∀ x ∈ sched.filterMap id, ((x.payments.length : ℚ)) ≤ (n : ℚ) := by
      intro s hs
      rcases List.mem_filterMap.mp hs with ⟨o, ho, hid⟩
      have hos : o = some s := hid
      rw [hos] at ho
      exact_mod_cast h s ho
    exact foldl_max_sched_le (n : ℚ) (sched.filterMap id) 0 (Nat.cast_nonneg n) hb

/-- C4 counterexample: a debt whose balance is already 0 listed before a
live debt leaves a hole in the sparse `schedules` array below its length,
so `Math.max` over the spread array returns NaN (`none`): `totalMonths` is
not a number at all, refuting `totalMonths ≤ 600` as stated, even though
the live debt's actual schedule has only 2 entries. -/
theorem c4_counterexample :
    (calculatePayoffSchedule
      [{ id := "Z", name := "PaidOff", balance := 0, interestRate := 0,
         minimumPayment := 50 },
       { id := "L", name := "Live", balance := 100, interestRate := 0,
         minimumPayment := 10 }] 0 .avalanche).totalMonths = none ∧
    (calculatePayoffSchedule
      [{ id := "Z", name := "PaidOff", balance := 0, interestRate := 0,
         minimumPayment := 50 },
       { id := "L", name := "Live", balance := 100, interestRate := 0,
         minimumPayment := 10 }] 0 .avalanche).debts.map
        (Option.map fun s => s.payments.length) = [none, some 2] := by
  with_unfolding_all decide

/-- C4 (amended): for every input the payoff simulation stops after at most
600 months: whenever `totalMonths` is a number it is at most 600, and every
per-debt schedule has at most 600 entries; hitting the ceiling truncates
the schedule (the function is total and returns a result with balances
possibly still positive) rather than raising an error. But `totalMonths`
is NaN (`none`), not a number bounded by 600, when a never-visited debt
slot precedes a visited one, as on the concrete debt pair below. -/
theorem c4_safety_ceiling_amended :
    (∀ (debts : List Account) (extraPayment : ℚ) (strategy : Strategy),
      (∀ m : ℚ,
        (calculatePayoffSchedule debts extraPayment strategy).totalMonths = some m →
          m ≤ 600) ∧
      ∀ s ∈ (calculatePayoffSchedule debts extraPayment strategy).debts,
        ∀ sc, s = some sc → sc.payments.length ≤ 600) ∧
    (calculatePayoffSchedule
      [{ id := "Z2", name := "PaidOffFirst", balance := 0, interestRate := 0,
         minimumPayment := 5 },
       { id := "L2", name := "LiveSecond", balance := 40, interestRate := 0,
         minimumPayment := 20 }] 0 .avalanche).totalMonths = none := by
  refine ⟨?_, by with_unfolding_all decide⟩
  intro debts extraPayment strategy
  have hinit : ∀ c ∈ (debts.map fun d =>
      ({ debt := d, balance := |d.balance|, sched := none } : SimCell)), schedLen c ≤ 0 := by
    intro c hc
    rcases List.mem_map.mp hc with ⟨d, _, rfl⟩
    simp [schedLen]
  have hfinal := schedLen_simLoop (n := 0) extraPayment 600 0
    { cells := debts.map fun d => { debt := d, balance := |d.balance|, sched := none },
      totalInterest := 0, totalPaid := 0 } hinit
  constructor
  · intro m hm
    simp only [calculatePayoffSchedule] at hm
    have hle := maxScheduleMonths_le (n := 600) _
      (by
        intro s hsmem
        rcases List.mem_map.mp (mem_jsSparseTrim hsmem) with ⟨c, hc, hcs⟩
        have hcs2 : c.sched = some s := hcs
        have hlen := hfinal c hc
        simp only [schedLen, hcs2] at hlen
        simpa using hlen) m hm
    exact_mod_cast hle
  · intro s hs sc hsc
    unfold calculatePayoffSchedule at hs
    rcases List.mem_map.mp (mem_jsSparseTrim hs) with ⟨c, hc, rfl⟩
    have := hfinal c hc
    simp only [hsc, schedLen] at this
    simpa using this

/-- C7: a single debt of balance 120 with minimum payment 100, interest
rate 0 and extra payment 0 pays off in exactly 2 months: payment 100 in
month 1 (leaving balance 20) and the capped payment 20 in month 2 (no
overpayment), with totalPaid 120, totalInterest 0 and totalMonths 2. -/
theorem c7_single_debt_two_month_payoff :
    (calculatePayoffSchedule
      [{ id := "d1", name := "Debt", balance := 120, interestRate := 0,
         minimumPayment := 100 }] 0 .avalanche).totalMonths = some 2 ∧
    (calculatePayoffSchedule
      [{ id := "d1", name := "Debt", balance := 120, interestRate := 0,
         minimumPayment := 100 }] 0 .avalanche).totalInterest = 0 ∧
    (calculatePayoffSchedule
      [{ id := "d1", name := "Debt", balance := 120, interestRate := 0,
         minimumPayment := 100 }] 0 .avalanche).totalPaid = 120 ∧
    (calculatePayoffSchedule
      [{ id := "d1", name := "Debt", balance := 120, interestRate := 0,
         minimumPayment := 100 }] 0 .avalanche).debts.map
        (Option.map fun s => s.payments.map fun p => (p.month, p.payment, p.balance)) =
      [some [(1, 100, 20), (2, 20, 0)]] := by
  with_unfolding_all decide

/-- C1 counterexample: for this debt set (balances, rates and minimum
payments all nonnegative, extra payment 0) the snowball strategy pays
strictly less total interest than avalanche, so `interestSavings` is
negative. The small zero-rate debt is last in avalanche order, so the cap
excess of its final payment is discarded at month end, while in snowball
order the same excess cascades to the high-rate debt within the month. -/
theorem c1_counterexample :
    (compareStrategies
        [{ id := "L", name := "SmallZeroRate", balance := 150, interestRate := 0,
           minimumPayment := 100 },
         { id := "H", name := "BigHighRate", balance := 300, interestRate := 120,
           minimumPayment := 30 }] 0).interestSavings < 0 := by
  with_unfolding_all decide

/-- C1 (amended): `compareStrategies` always returns `interestSavings` equal
to `snowball.totalInterest - avalanche.totalInterest`, but this difference
is not guaranteed to be nonnegative: on the concrete debt set of the
counterexample the avalanche strategy pays strictly more interest. -/
theorem c1_interest_savings_amended :
    (∀ (liabilities : List Account) (extraPayment : ℚ),
        (compareStrategies liabilities extraPayment).interestSavings =
          (compareStrategies liabilities extraPayment).snowball.totalInterest -
            (compareStrategies liabilities extraPayment).avalanche.totalInterest) ∧
    (compareStrategies
        [{ id := "L", name := "SmallZeroRate", balance := 150, interestRate := 0,
           minimumPayment := 100 },
         { id := "H", name := "BigHighRate", balance := 300, interestRate := 120,
           minimumPayment := 30 }] 0).snowball.totalInterest <
      (compareStrategies
        [{ id := "L", name := "SmallZeroRate", balance := 150, interestRate := 0,
           minimumPayment := 100 },
         { id := "H", name := "BigHighRate", balance := 300, interestRate := 120,
           minimumPayment := 30 }] 0).avalanche.totalInterest :=
  ⟨fun _ _ => rfl, by with_unfolding_all decide⟩

set_option maxRecDepth 400000 in
/-- C4 witness: the numeric `totalMonths` bound applied at a truncation
instance (a debt whose minimum payment is 0 never shrinks, the loop stops
at the 600-month ceiling with the balance still positive in the final
month's record, and `totalMonths` evaluates to the number 600 there), and
the per-schedule bound applied to the concrete two-entry schedule of C7's
input. -/
theorem c4_safety_ceiling_amended_witness :
    (calculatePayoffSchedule
        [{ id := "t", name := "Stuck", balance := 100, interestRate := 0,
           minimumPayment := 0 }] 0 .avalanche).totalMonths = some 600 ∧
    (600 : ℚ) ≤ 600 ∧
    ({ accountId := "d1", accountName := "Debt",
       payments := [{ month := 1, payment := 100, principal := 100, interest := 0,
                      balance := 20 },
                    { month := 2, payment := 20, principal := 20, interest := 0,
                      balance := 0 }],
       totalInterest := 0, payoffDate := some 2 } : DebtPayoffSchedule).payments.length ≤ 600 ∧
    (calculatePayoffSchedule
        [{ id := "t", name := "Stuck", balance := 100, interestRate := 0,
           minimumPayment := 0 }] 0 .avalanche).debts.map
        (Option.map fun s => (s.payments.length, s.payments.getLast?.map (·.balance))) =
      [some (600, some 100)] := by
  have h600 : (calculatePayoffSchedule
      [{ id := "t", name := "Stuck", balance := 100, interestRate := 0,
         minimumPayment := 0 }] 0 .avalanche).totalMonths = some 600 := by
    with_unfolding_all decide
  refine ⟨h600,
    (c4_safety_ceiling_amended.1
      [{ id := "t", name := "Stuck", balance := 100, interestRate := 0,
         minimumPayment := 0 }] 0 .avalanche).1 600 h600,
    ?_, by with_unfolding_all decide⟩
  exact (c4_safety_ceiling_amended.1
    [{ id := "d1", name := "Debt", balance := 120, interestRate := 0,
       minimumPayment := 100 }] 0 .avalanche).2 _ (by with_unfolding_all decide) _ rfl

set_option maxRecDepth 10000 in
/-- C8: the documented reference benchmark: projecting 100000 with 500 per
month at 7% for 30 years under 3% inflation gives a future value strictly
between 1,000,000 and 2,000,000, and a real value strictly below the future
value and strictly above 400,000. -/
theorem c8_reference_benchmark :
    1000000 < (calculateInvestmentProjection 100000 500 7 30 3).futureValue ∧
    (calculateInvestmentProjection 100000 500 7 30 3).futureValue < 2000000 ∧
    (calculateInvestmentProjection 100000 500 7 30 3).realValue <
      (calculateInvestmentProjection 100000 500 7 30 3).futureValue ∧
    400000 < (calculateInvestmentProjection 100000 500 7 30 3).realValue := by
  with_unfolding_all decide

theorem compoundMonths_succ (r c : ℚ) (n : ℕ) (b : ℚ) :
    compoundMonths r c (n + 1) b = compoundMonths r c n b * (1 + r) + c := by
  induction n generalizing b with
  | zero => simp [compoundMonths]
  | succ n ih =>
    have h1 : compoundMonths r c (n + 1 + 1) b
        = compoundMonths r c (n + 1) (b * (1 + r) + c) := rfl
    have h2 : compoundMonths r c (n + 1) b
        = compoundMonths r c n (b * (1 + r) + c) := rfl
    rw [h1, ih, h2]

theorem compoundMonths_add (r c : ℚ) (m n : ℕ) (b : ℚ) :
    compoundMonths r c n (compoundMonths r c m b) = compoundMonths r c (m + n) b := by
  induction m generalizing b with
  | zero => simp [compoundMonths]
  | succ m ih =>
    have h1 : compoundMonths r c (m + 1) b = compoundMonths r c m (b * (1 + r) + c) := rfl
    have e : m + 1 + n = m + n + 1 := by omega
    rw [h1, ih, e]
    rfl

theorem compoundMonths_closed_form (r c : ℚ) (hr : r ≠ 0) (n : ℕ) (b : ℚ) :
    compoundMonths r c n b = b * (1 + r) ^ n + c * (((1 + r) ^ n - 1) / r) := by
  induction n with
  | zero => simp [compoundMonths]
  | succ n ih =>
    rw [compoundMonths_succ, ih]
    field_simp
    ring

theorem compoundMonths_zero_rate (c : ℚ) (n : ℕ) (b : ℚ) :
    compoundMonths 0 c n b = b + c * n := by
  induction n with
  | zero => simp [compoundMonths]
  | succ n ih =>
    rw [compoundMonths_succ, ih]
    push_cast
    ring

theorem detYearLoop_snd (mr c iv infl : ℚ) (rem y : ℕ) (b : ℚ) :
    (detYearLoop mr c iv infl rem y b).2 = compoundMonths mr c (12 * rem) b := by
  induction rem generalizing y b with
  | zero => simp [detYearLoop, compoundMonths]
  | succ rem ih =>
    have h1 : (detYearLoop mr c iv infl (rem + 1) y b).2
        = (detYearLoop mr c iv infl rem (y + 1) (compoundMonths mr c 12 b)).2 := rfl
    rw [h1, ih, compoundMonths_add]
    congr 1
    ring

theorem detYearLoop_bands_eq (mr c iv infl : ℚ) (rem y : ℕ) (b : ℚ) :
    ∀ band ∈ (detYearLoop mr c iv infl rem y b).1,
      band.p10 = band.p25 ∧ band.p25 = band.p50 ∧ band.p50 = band.p75 ∧
        band.p75 = band.p90 := by
  induction rem generalizing y b with
  | zero => intro band h; simp [detYearLoop] at h
  | succ rem ih =>
    intro band h
    simp only [detYearLoop, List.mem_cons] at h
    rcases h with rfl | h
    · exact ⟨rfl, rfl, rfl, rfl⟩
    · exact ih _ _ band h

theorem runMonteCarloSimulation_zero_vol (P : MathPrims) (rng : ℕ → ℚ)
    (params : MonteCarloParams) (h : params.annualVolatility = 0) :
    runMonteCarloSimulation P rng params =
      runDeterministicSimulation params.initialValue params.monthlyContribution
        params.annualReturn params.inflationRate params.years := by
  unfold runMonteCarloSimulation
  rw [if_pos h]

/-- Final balance of the deterministic simulation equals the closed-form
future value of `calculateInvestmentProjection` at inflation 0 (requires a
nonnegative monthly contribution, matching the spec contract, because the
closed form skips the annuity term when the contribution is not positive). -/
theorem detBalance_eq_futureValue (iv mc ar : ℚ) (years : ℕ) (hmc : 0 ≤ mc) :
    compoundMonths (ar / 100 / 12) mc (12 * years) iv =
      (calculateInvestmentProjection iv mc ar years 0).futureValue := by
  simp only [calculateInvestmentProjection]
  rcases eq_or_ne (ar / 100 / 12) 0 with hr | hr
  · rw [if_pos hr, hr, compoundMonths_zero_rate]
    push_cast
    ring
  · rw [if_neg hr]
    rcases lt_or_eq_of_le hmc with hpos | hzero
    · rw [if_pos hpos, compoundMonths_closed_form _ _ hr]
      rw [show years * 12 = 12 * years from by ring]
    · rw [if_neg (by rw [← hzero]; exact lt_irrefl 0),
        compoundMonths_closed_form _ _ hr, ← hzero]
      rw [show years * 12 = 12 * years from by ring]
      ring

/-- C3: with zero volatility, `runMonteCarloSimulation` takes no random
draws (the result does not depend on the primitive interpretation or the
RNG stream), every yearly band has its five percentiles equal to one
deterministic value, `medianFinal` (which is the final-year balance before
inflation adjustment) equals the futureValue of
`calculateInvestmentProjection(initialValue, monthlyContribution,
annualReturn, years, 0)`, and the doubling/loss probabilities are each 0 or
1. The monthly contribution is nonnegative per the spec contract of the
projection function. -/
theorem c3_zero_volatility_deterministic (P P2 : MathPrims) (rng rng2 : ℕ → ℚ)
    (iv mc ar ir : ℚ) (years numSims : ℕ) (hmc : 0 ≤ mc) :
    runMonteCarloSimulation P2 rng2
        { initialValue := iv, monthlyContribution := mc, annualReturn := ar,
          annualVolatility := 0, inflationRate := ir, years := years,
          numSimulations := numSims } =
      runMonteCarloSimulation P rng
        { initialValue := iv, monthlyContribution := mc, annualReturn := ar,
          annualVolatility := 0, inflationRate := ir, years := years,
          numSimulations := numSims } ∧
    (∀ band ∈ (runMonteCarloSimulation P rng
        { initialValue := iv, monthlyContribution := mc, annualReturn := ar,
          annualVolatility := 0, inflationRate := ir, years := years,
          numSimulations := numSims }).yearlyData,
      band.p10 = band.p25 ∧ band.p25 = band.p50 ∧ band.p50 = band.p75 ∧
        band.p75 = band.p90) ∧
    (runMonteCarloSimulation P rng
        { initialValue := iv, monthlyContribution := mc, annualReturn := ar,
          annualVolatility := 0, inflationRate := ir, years := years,
          numSimulations := numSims }).medianFinal =
      (calculateInvestmentProjection iv mc ar years 0).futureValue ∧
    ((runMonteCarloSimulation P rng
        { initialValue := iv, monthlyContribution := mc, annualReturn := ar,
          annualVolatility := 0, inflationRate := ir, years := years,
          numSimulations := numSims }).probabilityOfDoubling = 0 ∨
      (runMonteCarloSimulation P rng
        { initialValue := iv, monthlyContribution := mc, annualReturn := ar,
          annualVolatility := 0, inflationRate := ir, years := years,
          numSimulations := numSims }).probabilityOfDoubling = 1) ∧
    ((runMonteCarloSimulation P rng
        { initialValue := iv, monthlyContribution := mc, annualReturn := ar,
          annualVolatility := 0, inflationRate := ir, years := years,
          numSimulations := numSims }).probabilityOfLoss = 0 ∨
      (runMonteCarloSimulation P rng
        { initialValue := iv, monthlyContribution := mc, annualReturn := ar,
          annualVolatility := 0, inflationRate := ir, years := years,
          numSimulations := numSims }).probabilityOfLoss = 1) := by
  have hzero := runMonteCarloSimulation_zero_vol P rng
    { initialValue := iv, monthlyContribution := mc, annualReturn := ar,
      annualVolatility := 0, inflationRate := ir, years := years,
      numSimulations := numSims } rfl
  have hzero2 := runMonteCarloSimulation_zero_vol P2 rng2
    { initialValue := iv, monthlyContribution := mc, annualReturn := ar,
      annualVolatility := 0, inflationRate := ir, years := years,
      numSimulations := numSims } rfl
  refine ⟨hzero2.trans hzero.symm, ?_, ?_, ?_, ?_⟩
  · rw [hzero]
    simp only [runDeterministicSimulation]
    exact detYearLoop_bands_eq _ _ _ _ _ _ _
  · rw [hzero]
    simp only [runDeterministicSimulation]
    rw [detYearLoop_snd]
    exact detBalance_eq_futureValue iv mc ar years hmc
  · rw [hzero]
    simp only [runDeterministicSimulation]
    split
    · exact Or.inr rfl
    · exact Or.inl rfl
  · rw [hzero]
    simp only [runDeterministicSimulation]
    split
    · exact Or.inr rfl
    · exact Or.inl rfl

/-- C3 witness: the deterministic run at 100 initial, 0 contribution, 0%
return, 0 volatility, 1 year, evaluated concretely. -/
theorem c3_zero_volatility_witness :
    (runMonteCarloSimulation ⟨fun x => x, fun x => x, fun x => x, fun x => x, 0⟩
        (fun _ => 0)
        { initialValue := 100, monthlyContribution := 0, annualReturn := 0,
          annualVolatility := 0, inflationRate := 0, years := 1,
          numSimulations := 1 }).medianFinal =
      (calculateInvestmentProjection 100 0 0 1 0).futureValue ∧
    ({ year := 1, p10 := 100, p25 := 100, p50 := 100, p75 := 100, p90 := 100,
       contributions := 100 } : YearlyPercentiles).p10 =
      ({ year := 1, p10 := 100, p25 := 100, p50 := 100, p75 := 100, p90 := 100,
         contributions := 100 } : YearlyPercentiles).p25 := by
  refine ⟨(c3_zero_volatility_deterministic
    ⟨fun x => x, fun x => x, fun x => x, fun x => x, 0⟩
    ⟨fun x => x, fun x => x, fun x => x, fun x => x, 0⟩
    (fun _ => 0) (fun _ => 0) 100 0 0 0 1 1 (le_refl 0)).2.2.1, ?_⟩
  exact ((c3_zero_volatility_deterministic
    ⟨fun x => x, fun x => x, fun x => x, fun x => x, 0⟩
    ⟨fun x => x, fun x => x, fun x => x, fun x => x, 0⟩
    (fun _ => 0) (fun _ => 0) 100 0 0 0 1 1 (le_refl 0)).2.1 _
    (by with_unfolding_all decide)).1

theorem roundTo5_le (x : ℚ) : roundTo5 x ≤ x + 5 / 2 := by
  unfold roundTo5 jsRound
  have h := Int.floor_le (x / 5 + 1 / 2)
  have h2 := mul_le_mul_of_nonneg_right h (show (0 : ℚ) ≤ 5 by norm_num)
  linarith

theorem roundTo5_le_of_lt {x : ℚ} {n : ℤ} (h : x < 5 * (n : ℚ) + 5 / 2) :
    roundTo5 x ≤ 5 * (n : ℚ) := by
  have h1 : jsRound (x / 5) ≤ n := by
    unfold jsRound
    have hlt : (⌊x / 5 + 1 / 2⌋ : ℤ) < n + 1 := Int.floor_lt.mpr (by push_cast; linarith)
    omega
  unfold roundTo5
  have h2 : ((jsRound (x / 5) : ℚ)) ≤ (n : ℚ) := by exact_mod_cast h1
  nlinarith

theorem roundSum_le_of_slack (s b : ℚ) (h : s + b ≤ 95) :
    roundTo5 s + roundTo5 b ≤ 100 := by
  have h1 := roundTo5_le s
  have h2 := roundTo5_le b
  linarith

theorem roundSum_adj_le (a : ℚ) (sk bk : ℤ)
    (hsum : 5 * (sk : ℚ) + 5 * (bk : ℚ) ≤ 100) (ha0 : 0 ≤ a) (ha10 : a ≤ 10) :
    roundTo5 (5 * (sk : ℚ) - a) + roundTo5 (5 * (bk : ℚ) + a / 2) ≤ 100 := by
  rcases lt_or_le a 5 with h5 | h5
  · have h1 : roundTo5 (5 * (sk : ℚ) - a) ≤ 5 * (sk : ℚ) :=
      roundTo5_le_of_lt (by linarith)
    have h2 : roundTo5 (5 * (bk : ℚ) + a / 2) ≤ 5 * (bk : ℚ) :=
      roundTo5_le_of_lt (by linarith)
    linarith
  · have h1 : roundTo5 (5 * (sk : ℚ) - a) ≤ 5 * ((sk - 1 : ℤ) : ℚ) :=
      roundTo5_le_of_lt (by push_cast; linarith)
    have h2 : roundTo5 (5 * (bk : ℚ) + a / 2) ≤ 5 * ((bk + 1 : ℤ) : ℚ) :=
      roundTo5_le_of_lt (by push_cast; linarith)
    push_cast at h1 h2
    linarith

/-- Whatever the inputs, the rounded cash remainder of `determineAllocation`
is nonnegative. -/
theorem determineAllocation_cash_nonneg (age yuw : ℤ) (wr : ℚ) :
    0 ≤ (determineAllocation age yuw wr).cashPercentage := by
  have key : ∀ s b : ℚ, roundTo5 s + roundTo5 b ≤ 100 →
      (0 : ℚ) ≤ 100 - roundTo5 s - roundTo5 b := fun s b h => by linarith
  have hadj : ∀ wr' : ℚ, 5 < wr' → 0 ≤ min 10 (wr' - 5) ∧ min 10 (wr' - 5) ≤ 10 :=
    fun wr' h => ⟨le_min (by norm_num) (by linarith), min_le_left _ _⟩
  simp only [determineAllocation]
  by_cases h1 : 20 < yuw
  · simp only [if_pos h1]
    by_cases hw : 5 < wr
    · simp only [if_pos hw]
      rcases hadj wr hw with ⟨ha0, ha10⟩
      refine key _ _ ?_
      have hm : max (90 - min 10 (wr - 5)) 30 = 90 - min 10 (wr - 5) :=
        max_eq_left (by linarith)
      rw [hm]
      have := roundSum_adj_le (min 10 (wr - 5)) 18 2 (by norm_num) ha0 ha10
      push_cast at this
      convert this using 3 <;> norm_num
    · simp only [if_neg hw]
      exact key _ _ (by with_unfolding_all decide)
  · simp only [if_neg h1]
    by_cases h2 : 15 < yuw
    · simp only [if_pos h2]
      by_cases hw : 5 < wr
      · simp only [if_pos hw]
        rcases hadj wr hw with ⟨ha0, ha10⟩
        refine key _ _ ?_
        rw [max_eq_left (by linarith : (30 : ℚ) ≤ 80 - min 10 (wr - 5))]
        have := roundSum_adj_le (min 10 (wr - 5)) 16 4 (by norm_num) ha0 ha10
        push_cast at this
        convert this using 3 <;> norm_num
      · simp only [if_neg hw]
        exact key _ _ (by with_unfolding_all decide)
    · simp only [if_neg h2]
      by_cases h3 : 10 < yuw
      · simp only [if_pos h3]
        by_cases hw : 5 < wr
        · simp only [if_pos hw]
          rcases hadj wr hw with ⟨ha0, ha10⟩
          refine key _ _ ?_
          rw [max_eq_left (by linarith : (30 : ℚ) ≤ 70 - min 10 (wr - 5))]
          have := roundSum_adj_le (min 10 (wr - 5)) 14 5 (by norm_num) ha0 ha10
          push_cast at this
          convert this using 3 <;> norm_num
        · simp only [if_neg hw]
          exact key _ _ (by with_unfolding_all decide)
      · simp only [if_neg h3]
        by_cases h4 : 5 < yuw
        · simp only [if_pos h4]
          by_cases hw : 5 < wr
          · simp only [if_pos hw]
            rcases hadj wr hw with ⟨ha0, ha10⟩
            refine key _ _ ?_
            rw [max_eq_left (by linarith : (30 : ℚ) ≤ 60 - min 10 (wr - 5))]
            have := roundSum_adj_le (min 10 (wr - 5)) 12 6 (by norm_num) ha0 ha10
            push_cast at this
            convert this using 3 <;> norm_num
          · simp only [if_neg hw]
            exact key _ _ (by with_unfolding_all decide)
        · simp only [if_neg h4]
          by_cases h5 : 0 < yuw
          · simp only [if_pos h5]
            by_cases hw : 5 < wr
            · simp only [if_pos hw]
              rcases hadj wr hw with ⟨ha0, ha10⟩
              refine key _ _ ?_
              rw [max_eq_left (by linarith : (30 : ℚ) ≤ 50 - min 10 (wr - 5))]
              have := roundSum_adj_le (min 10 (wr - 5)) 10 7 (by norm_num) ha0 ha10
              push_cast at this
              convert this using 3 <;> norm_num
            · simp only [if_neg hw]
              exact key _ _ (by with_unfolding_all decide)
          · simp only [if_neg h5]
            have hstock : (40 : ℚ) ≤ max (110 - (age : ℚ)) 40 := le_max_right _ _
            have hbond : min (60 - max (110 - (age : ℚ)) 40) 50 ≤
                60 - max (110 - (age : ℚ)) 40 := min_le_left _ _
            by_cases hw : 5 < wr
            · simp only [if_pos hw]
              rcases hadj wr hw with ⟨ha0, ha10⟩
              refine key _ _ ?_
              rw [max_eq_left (by linarith :
                (30 : ℚ) ≤ max (110 - (age : ℚ)) 40 - min 10 (wr - 5))]
              exact roundSum_le_of_slack _ _ (by linarith)
            · simp only [if_neg hw]
              exact key _ _ (roundSum_le_of_slack _ _ (by linarith))

/-- The cash percentage is by construction the complement of the rounded
stock and bond percentages. -/
theorem determineAllocation_cash_eq (age yuw : ℤ) (wr : ℚ) :
    (determineAllocation age yuw wr).cashPercentage =
      100 - (determineAllocation age yuw wr).stockPercentage -
        (determineAllocation age yuw wr).bondPercentage := rfl

/-- C5: the percentages of the allocations returned by
`calculatePortfolioAllocation` (US Stocks, International Stocks, Bonds, and
Cash when present) sum to exactly 100, for every input: the stock split is
exact (70% + 30%), cash completes the rounded triple to 100, and the cash
remainder is provably nonnegative, so dropping a nonpositive cash entry
never loses mass. -/
theorem c5_allocation_percentages_sum_100 (age yearsUntilWithdrawal : ℤ)
    (annualWithdrawal portfolioAmount : ℚ) :
    (((calculatePortfolioAllocation age yearsUntilWithdrawal annualWithdrawal
        portfolioAmount).allocations).map AssetAllocation.percentage).sum = 100 := by
  simp only [calculatePortfolioAllocation]
  generalize (if 0 < portfolioAmount then annualWithdrawal / portfolioAmount * 100
    else 0 : ℚ) = wr
  have hcash := determineAllocation_cash_nonneg age yearsUntilWithdrawal wr
  have hceq := determineAllocation_cash_eq age yearsUntilWithdrawal wr
  split
  · simp only [List.map_append, List.map_cons, List.map_nil, List.sum_append,
      List.sum_cons, List.sum_nil]
    rw [hceq]
    ring
  · rename_i hneg
    have hzero : (determineAllocation age yearsUntilWithdrawal wr).cashPercentage = 0 :=
      le_antisymm (not_lt.mp hneg) hcash
    rw [hceq] at hzero
    simp only [List.map_cons, List.map_nil, List.sum_cons, List.sum_nil]
    linarith

/-- C9: in the already-withdrawing band (yearsUntilWithdrawal = 0) with age
45 and withdrawal rate 0, the stock rule gives 65, so the bond rule
min(60 - 65, 50) = -5 is negative and the returned allocations contain a
Bonds entry with a negative percentage. -/
theorem c9_negative_bond_allocation :
    ∃ a ∈ (calculatePortfolioAllocation 45 0 0 100).allocations,
      a.assetClass = "Bonds" ∧ a.percentage < 0 := by
  with_unfolding_all decide

theorem sortAsc_sorted (l : List ℚ) : (sortAsc l).Sorted (· ≤ ·) :=
  List.sorted_insertionSort _ l

theorem sorted_getD_mono {l : List ℚ} (hs : l.Sorted (· ≤ ·)) {a b : ℕ}
    (hab : a ≤ b) (hb : b < l.length) : l.getD a 0 ≤ l.getD b 0 := by
  have ha : a < l.length := lt_of_le_of_lt hab hb
  have h := List.Sorted.rel_get_of_le hs
    (a := ⟨a, ha⟩) (b := ⟨b, hb⟩) (by simpa using hab)
  simpa [List.getD_eq_getElem?_getD, List.getElem?_eq_getElem, ha, hb,
    List.get_eq_getElem] using h

theorem percentile_eval {l : List ℚ} (h2 : 2 ≤ l.length) (p : ℚ) :
    percentile l p =
      if ⌊p / 100 * ((l.length : ℚ) - 1)⌋ = ⌈p / 100 * ((l.length : ℚ) - 1)⌉ then
        l.getD ⌊p / 100 * ((l.length : ℚ) - 1)⌋.toNat 0
      else
        l.getD ⌊p / 100 * ((l.length : ℚ) - 1)⌋.toNat 0 +
          (p / 100 * ((l.length : ℚ) - 1) -
              (⌊p / 100 * ((l.length : ℚ) - 1)⌋ : ℚ)) *
            (l.getD ⌈p / 100 * ((l.length : ℚ) - 1)⌉.toNat 0 -
              l.getD ⌊p / 100 * ((l.length : ℚ) - 1)⌋.toNat 0) := by
  unfold percentile
  rw [if_neg (by omega), if_neg (by omega)]

/-- Monotonicity of linear-interpolation percentiles on a sorted list. -/
theorem percentile_mono {l : List ℚ} (hs : l.Sorted (· ≤ ·)) {p q : ℚ}
    (hp : 0 ≤ p) (hpq : p ≤ q) (hq : q ≤ 100) :
    percentile l p ≤ percentile l q := by
  by_cases h0 : l.length = 0
  · unfold percentile
    simp [h0]
  by_cases h1 : l.length = 1
  · unfold percentile
    simp [h0, h1]
  have h2 : 2 ≤ l.length := by omega
  rw [percentile_eval h2 p, percentile_eval h2 q]
  set i : ℚ := p / 100 * ((l.length : ℚ) - 1) with hidef
  set j : ℚ := q / 100 * ((l.length : ℚ) - 1) with hjdef
  have hlen1 : (1 : ℚ) ≤ (l.length : ℚ) - 1 := by
    have : (2 : ℚ) ≤ (l.length : ℚ) := by exact_mod_cast h2
    linarith
  have hi0 : 0 ≤ i := mul_nonneg (by linarith) (by linarith)
  have hj0 : 0 ≤ j := mul_nonneg (by linarith) (by linarith)
  have hij : i ≤ j := by
    apply mul_le_mul_of_nonneg_right _ (by linarith)
    linarith
  have hjn : j ≤ (l.length : ℚ) - 1 := by
    have hq1 : q / 100 ≤ 1 := by linarith
    calc j ≤ 1 * ((l.length : ℚ) - 1) :=
          mul_le_mul_of_nonneg_right hq1 (by linarith)
    _ = (l.length : ℚ) - 1 := one_mul _
  have hfi0 : 0 ≤ ⌊i⌋ := Int.floor_nonneg.mpr hi0
  have hfj0 : 0 ≤ ⌊j⌋ := Int.floor_nonneg.mpr hj0
  have hffij : ⌊i⌋ ≤ ⌊j⌋ := Int.floor_le_floor hij
  have hccij : ⌈i⌉ ≤ ⌈j⌉ := Int.ceil_le_ceil hij
  have hfci : ⌊i⌋ ≤ ⌈i⌉ := Int.floor_le_ceil i
  have hfcj : ⌊j⌋ ≤ ⌈j⌉ := Int.floor_le_ceil j
  have hcjn : ⌈j⌉ ≤ (l.length : ℤ) - 1 := by
    rw [Int.ceil_le]
    push_cast
    linarith
  have hcin : ⌈i⌉ ≤ (l.length : ℤ) - 1 := le_trans hccij hcjn
  have hlen0 : 0 < l.length := by omega
  have hcjlt : ⌈j⌉.toNat < l.length := by omega
  have hcilt : ⌈i⌉.toNat < l.length := by omega
  have hfjlt : ⌊j⌋.toNat < l.length := by omega
  have hfilt : ⌊i⌋.toNat < l.length := by omega
  have hFCi : l.getD ⌊i⌋.toNat 0 ≤ l.getD ⌈i⌉.toNat 0 :=
    sorted_getD_mono hs (by omega) hcilt
  have hFCj : l.getD ⌊j⌋.toNat 0 ≤ l.getD ⌈j⌉.toNat 0 :=
    sorted_getD_mono hs (by omega) hcjlt
  have hfraci0 : 0 ≤ i - (⌊i⌋ : ℚ) := by linarith [Int.floor_le i]
  have hfracj0 : 0 ≤ j - (⌊j⌋ : ℚ) := by linarith [Int.floor_le j]
  have hfraci1 : i - (⌊i⌋ : ℚ) ≤ 1 := by linarith [Int.lt_floor_add_one i]
  have hfracj1 : j - (⌊j⌋ : ℚ) ≤ 1 := by linarith [Int.lt_floor_add_one j]
  have hinterpi_le : l.getD ⌊i⌋.toNat 0 +
      (i - (⌊i⌋ : ℚ)) * (l.getD ⌈i⌉.toNat 0 - l.getD ⌊i⌋.toNat 0) ≤
      l.getD ⌈i⌉.toNat 0 := by
    have hm := mul_le_mul_of_nonneg_right hfraci1 (by linarith : (0 : ℚ) ≤
      l.getD ⌈i⌉.toNat 0 - l.getD ⌊i⌋.toNat 0)
    linarith
  have hinterpj_ge : l.getD ⌊j⌋.toNat 0 ≤ l.getD ⌊j⌋.toNat 0 +
      (j - (⌊j⌋ : ℚ)) * (l.getD ⌈j⌉.toNat 0 - l.getD ⌊j⌋.toNat 0) := by
    have hm := mul_nonneg hfracj0 (by linarith : (0 : ℚ) ≤
      l.getD ⌈j⌉.toNat 0 - l.getD ⌊j⌋.toNat 0)
    linarith
  by_cases hieq : ⌊i⌋ = ⌈i⌉ <;> by_cases hjeq : ⌊j⌋ = ⌈j⌉
  · rw [if_pos hieq, if_pos hjeq]
    exact sorted_getD_mono hs (by omega) hfjlt
  · rw [if_pos hieq, if_neg hjeq]
    exact le_trans (sorted_getD_mono hs (by omega) hfjlt) hinterpj_ge
  · rw [if_neg hieq, if_pos hjeq]
    refine le_trans hinterpi_le (sorted_getD_mono hs ?_ hfjlt)
    have hcifj : ⌈i⌉ ≤ ⌊j⌋ := by rw [hjeq]; exact hccij
    omega
  · rw [if_neg hieq, if_neg hjeq]
    by_cases hcf : ⌈i⌉ ≤ ⌊j⌋
    · refine le_trans hinterpi_le (le_trans (sorted_getD_mono hs (by omega) hfjlt)
        hinterpj_ge)
    · have hffeq : ⌊i⌋ = ⌊j⌋ := by
        have := Int.ceil_le_floor_add_one i
        omega
      have hcceq : ⌈i⌉ = ⌈j⌉ := by
        have hci : ⌈i⌉ = ⌊i⌋ + 1 := by
          have := Int.ceil_le_floor_add_one i
          omega
        have hcj : ⌈j⌉ = ⌊j⌋ + 1 := by
          have := Int.ceil_le_floor_add_one j
          omega
        omega
      rw [hffeq, hcceq]
      have hfracle : i - (⌊j⌋ : ℚ) ≤ j - (⌊j⌋ : ℚ) := by linarith
      have hm := mul_le_mul_of_nonneg_right hfracle (by linarith : (0 : ℚ) ≤
        l.getD ⌈j⌉.toNat 0 - l.getD ⌊j⌋.toNat 0)
      linarith

theorem percentile_chain (vals : List ℚ) :
    percentile (sortAsc vals) 10 ≤ percentile (sortAsc vals) 25 ∧
    percentile (sortAsc vals) 25 ≤ percentile (sortAsc vals) 50 ∧
    percentile (sortAsc vals) 50 ≤ percentile (sortAsc vals) 75 ∧
    percentile (sortAsc vals) 75 ≤ percentile (sortAsc vals) 90 := by
  have hs := sortAsc_sorted vals
  exact ⟨percentile_mono hs (by norm_num) (by norm_num) (by norm_num),
    percentile_mono hs (by norm_num) (by norm_num) (by norm_num),
    percentile_mono hs (by norm_num) (by norm_num) (by norm_num),
    percentile_mono hs (by norm_num) (by norm_num) (by norm_num)⟩

/-- C2: every yearly band of `runMonteCarloSimulation` satisfies
p10 ≤ p25 ≤ p50 ≤ p75 ≤ p90 — for every interpretation of the math
primitives, every RNG draw stream and every parameter set; this covers the
stochastic branch (percentiles of a sorted cross-section, preserved by the
positive post-hoc inflation division) and the zero-volatility deterministic
branch (all five equal). -/
theorem c2_percentile_bands_ordered (P : MathPrims) (rng : ℕ → ℚ)
    (params : MonteCarloParams) :
    ∀ band ∈ (runMonteCarloSimulation P rng params).yearlyData,
      band.p10 ≤ band.p25 ∧ band.p25 ≤ band.p50 ∧ band.p50 ≤ band.p75 ∧
        band.p75 ≤ band.p90 := by
  by_cases hvol : params.annualVolatility = 0
  · rw [runMonteCarloSimulation_zero_vol P rng params hvol]
    intro band hband
    simp only [runDeterministicSimulation] at hband
    have h := detYearLoop_bands_eq _ _ _ _ _ _ _ band hband
    exact ⟨h.1.le, h.2.1.le, h.2.2.1.le, h.2.2.2.le⟩
  · unfold runMonteCarloSimulation
    rw [if_neg hvol]
    intro band hband
    simp only at hband
    split at hband
    · rcases List.mem_map.mp hband with ⟨d, hd, rfl⟩
      rcases List.mem_map.mp hd with ⟨y, _, rfl⟩
      rename_i hinf
      have hfac : (0 : ℚ) < (1 + params.inflationRate / 100) ^ (y + 1) := by
        apply pow_pos
        linarith
      obtain ⟨h1, h2, h3, h4⟩ := percentile_chain
        ((runPaths P rng params.initialValue params.monthlyContribution
          (computeMonthlyLogParams P params.annualReturn params.annualVolatility).1
          (computeMonthlyLogParams P params.annualReturn params.annualVolatility).2
          params.years params.numSimulations 0).map (fun path => path.getD y 0))
      dsimp only
      refine ⟨?_, ?_, ?_, ?_⟩ <;> gcongr
    · rcases List.mem_map.mp hband with ⟨y, _, rfl⟩
      dsimp only
      exact percentile_chain _

set_option maxRecDepth 400000 in
/-- C2 witness: the theorem applied to the concrete yearly band of a
one-path, one-year stochastic run (interpreting `exp` as the constant 1, so
every monthly return is 0 and the balance stays at 100). -/
theorem c2_percentile_bands_witness :
    ({ year := 1, p10 := 100, p25 := 100, p50 := 100, p75 := 100,
       p90 := 100, contributions := 100 } : YearlyPercentiles).p10 ≤
    ({ year := 1, p10 := 100, p25 := 100, p50 := 100, p75 := 100,
       p90 := 100, contributions := 100 } : YearlyPercentiles).p25 := by
  refine ((c2_percentile_bands_ordered
    ⟨fun _ => 1, fun x => x, fun x => x, fun x => x, 0⟩ (fun _ => 1 / 2)
    { initialValue := 100, monthlyContribution := 0, annualReturn := 0,
      annualVolatility := 100, inflationRate := 0, years := 1,
      numSimulations := 1 }) _ ?_).1
  with_unfolding_all decide

theorem getLast?_cons_of_ne_nil {α : Type _} (a : α) {l : List α} (h : l ≠ []) :
    (a :: l).getLast? = l.getLast? := by
  cases l with
  | nil => exact absurd rfl h
  | cons b t => simp [List.getLast?_cons_cons]

theorem getLast?_map_range {α : Type _} (f : ℕ → α) (k : ℕ) :
    ((List.range (k + 1)).map f).getLast? = some (f k) := by
  rw [List.range_succ, List.map_append]
  simp

theorem detYearLoop_length (mr c iv infl : ℚ) (rem y : ℕ) (b : ℚ) :
    (detYearLoop mr c iv infl rem y b).1.length = rem := by
  induction rem generalizing y b with
  | zero => rfl
  | succ rem ih =>
    have h1 : (detYearLoop mr c iv infl (rem + 1) y b).1.length =
        (detYearLoop mr c iv infl rem (y + 1)
          (compoundMonths mr c 12 b)).1.length + 1 := rfl
    rw [h1, ih]

theorem detYearLoop_getLast (mr c iv infl : ℚ) (rem y : ℕ) (b : ℚ) :
    ∃ band, (detYearLoop mr c iv infl (rem + 1) y b).1.getLast? = some band ∧
      band.year = y + rem ∧
      band.p50 = if 0 < infl then
          compoundMonths mr c (12 * (rem + 1)) b / (1 + infl / 100) ^ (y + rem)
        else compoundMonths mr c (12 * (rem + 1)) b := by
  induction rem generalizing y b with
  | zero =>
    refine ⟨_, rfl, rfl, ?_⟩
    simp [detYearLoop]
  | succ rem ih =>
    have hne : (detYearLoop mr c iv infl (rem + 1) (y + 1)
        (compoundMonths mr c 12 b)).1 ≠ [] := by
      intro hnil
      have hl := detYearLoop_length mr c iv infl (rem + 1) (y + 1)
        (compoundMonths mr c 12 b)
      rw [hnil] at hl
      simp at hl
    obtain ⟨band, hlast, hyear, hp50⟩ := ih (y + 1) (compoundMonths mr c 12 b)
    refine ⟨band, ?_, by omega, ?_⟩
    · have hcons : (detYearLoop mr c iv infl (rem + 1 + 1) y b).1 =
          _ :: (detYearLoop mr c iv infl (rem + 1) (y + 1)
            (compoundMonths mr c 12 b)).1 := rfl
      rw [hcons, getLast?_cons_of_ne_nil _ hne, hlast]
    · rw [hp50, compoundMonths_add]
      have he1 : 12 + 12 * (rem + 1) = 12 * (rem + 1 + 1) := by ring
      have he2 : y + 1 + rem = y + (rem + 1) := by omega
      rw [he1, he2]

/-- C10: when inflationRate > 0 the post-hoc inflation adjustment modifies
only the yearlyData bands: finalValues, medianFinal, meanFinal and the two
probabilities equal those of the same run with inflationRate 0 (they stay
nominal), and medianFinal equals the final year's adjusted p50 multiplied
back by (1 + inflationRate/100)^years. Holds in the stochastic and in the
deterministic branch. -/
theorem c10_inflation_frame (P : MathPrims) (rng : ℕ → ℚ)
    (params : MonteCarloParams) (hinf : 0 < params.inflationRate)
    (hyears : 1 ≤ params.years) :
    (runMonteCarloSimulation P rng params).finalValues =
      (runMonteCarloSimulation P rng { params with inflationRate := 0 }).finalValues ∧
    (runMonteCarloSimulation P rng params).medianFinal =
      (runMonteCarloSimulation P rng { params with inflationRate := 0 }).medianFinal ∧
    (runMonteCarloSimulation P rng params).meanFinal =
      (runMonteCarloSimulation P rng { params with inflationRate := 0 }).meanFinal ∧
    (runMonteCarloSimulation P rng params).probabilityOfDoubling =
      (runMonteCarloSimulation P rng
        { params with inflationRate := 0 }).probabilityOfDoubling ∧
    (runMonteCarloSimulation P rng params).probabilityOfLoss =
      (runMonteCarloSimulation P rng
        { params with inflationRate := 0 }).probabilityOfLoss ∧
    ∃ band, (runMonteCarloSimulation P rng params).yearlyData.getLast? = some band ∧
      (runMonteCarloSimulation P rng params).medianFinal =
        band.p50 * (1 + params.inflationRate / 100) ^ params.years := by
  obtain ⟨k, hk⟩ : ∃ k, params.years = k + 1 := ⟨params.years - 1, by omega⟩
  have hfpos : (0 : ℚ) < (1 + params.inflationRate / 100) ^ params.years := by
    apply pow_pos
    linarith
  by_cases hvol : params.annualVolatility = 0
  · rw [runMonteCarloSimulation_zero_vol P rng params hvol,
      runMonteCarloSimulation_zero_vol P rng { params with inflationRate := 0 } hvol]
    simp only [runDeterministicSimulation]
    refine ⟨?_, ?_, ?_, ?_, ?_, ?_⟩
    · rw [detYearLoop_snd, detYearLoop_snd]
    · rw [detYearLoop_snd, detYearLoop_snd]
    · rw [detYearLoop_snd, detYearLoop_snd]
    · rw [detYearLoop_snd, detYearLoop_snd]
    · rw [detYearLoop_snd, detYearLoop_snd]
    · rw [hk]
      obtain ⟨band, hlast, hyear, hp50⟩ := detYearLoop_getLast
        (params.annualReturn / 100 / 12) params.monthlyContribution
        params.initialValue params.inflationRate k 1 params.initialValue
      refine ⟨band, hlast, ?_⟩
      rw [detYearLoop_snd, hp50, if_pos hinf]
      have he : 1 + k = k + 1 := by omega
      rw [he]
      rw [div_mul_cancel₀]
      rw [hk] at hfpos
      exact ne_of_gt hfpos
  · unfold runMonteCarloSimulation
    rw [if_neg hvol, if_neg hvol]
    simp only
    rw [if_pos hinf]
    refine ⟨trivial, trivial, trivial, trivial, trivial, ?_⟩
    rw [hk, List.map_map, getLast?_map_range]
    refine ⟨_, rfl, ?_⟩
    dsimp only [Function.comp]
    simp only [Nat.add_sub_cancel]
    rw [div_mul_cancel₀]
    rw [hk] at hfpos
    exact ne_of_gt hfpos

/-- C10 witness: the frame equalities evaluated on a concrete deterministic
run with 100% inflation over one year. -/
theorem c10_inflation_frame_witness :
    (runMonteCarloSimulation ⟨fun x => x, fun x => x, fun x => x, fun x => x, 0⟩
        (fun _ => 0)
        { initialValue := 100, monthlyContribution := 0, annualReturn := 0,
          annualVolatility := 0, inflationRate := 100, years := 1,
          numSimulations := 1 }).medianFinal =
      (runMonteCarloSimulation ⟨fun x => x, fun x => x, fun x => x, fun x => x, 0⟩
        (fun _ => 0)
        { initialValue := 100, monthlyContribution := 0, annualReturn := 0,
          annualVolatility := 0, inflationRate := 0, years := 1,
          numSimulations := 1 }).medianFinal := by
  exact (c10_inflation_frame ⟨fun x => x, fun x => x, fun x => x, fun x => x, 0⟩
    (fun _ => 0)
    { initialValue := 100, monthlyContribution := 0, annualReturn := 0,
      annualVolatility := 0, inflationRate := 100, years := 1,
      numSimulations := 1 } (by norm_num) (by norm_num)).2.1

theorem wordsOfAux_ne_nil (l : List Char) : ∀ (x : Char) (xs : List Char),
    wordsOfAux (x :: xs) l ≠ [] := by
  induction l with
  | nil => intro x xs; simp [wordsOfAux]
  | cons c cs ih =>
    intro x xs
    simp only [wordsOfAux]
    split
    · simp
    · exact ih c (x :: xs)

theorem dropWhile_head_false {p : Char → Bool} : ∀ {l : List Char} {c : Char}
    {cs : List Char}, l.dropWhile p = c :: cs → p c = false := by
  intro l
  induction l with
  | nil => intro c cs h; simp [List.dropWhile] at h
  | cons a t ih =>
    intro c cs h
    rw [List.dropWhile_cons] at h
    split at h
    · exact ih h
    · cases h
      rename_i hp
      simpa using hp

theorem dropWhile_suffix (p : Char → Bool) (l : List Char) :
    l.dropWhile p <:+ l := by
  induction l with
  | nil => simp
  | cons a t ih =>
    rw [List.dropWhile_cons]
    split
    · exact ih.trans (List.suffix_cons a t)
    · exact List.suffix_refl _

theorem prefix_trimRight (l : List Char) : trimRight l <+: l := by
  unfold trimRight
  have h := dropWhile_suffix isSpaceJS l.reverse
  have h2 := List.reverse_prefix.mpr h
  rwa [List.reverse_reverse] at h2

theorem prefix_cons_head {α : Type _} {l₁ l₂ : List α} {c : α} {cs : List α}
    (h : l₁ <+: l₂) (he : l₁ = c :: cs) : ∃ cs₂, l₂ = c :: cs₂ := by
  obtain ⟨t, rfl⟩ := h
  subst he
  exact ⟨cs ++ t, rfl⟩

theorem trimChars_head_false {l : List Char} {c : Char} {cs : List Char}
    (h : trimChars l = c :: cs) : isSpaceJS c = false := by
  obtain ⟨cs₂, h₂⟩ := prefix_cons_head (prefix_trimRight (trimLeft l)) h
  exact dropWhile_head_false h₂

theorem collapseWs_ne_nil {c : Char} {cs : List Char} :
    collapseWs (c :: cs) ≠ [] := by
  unfold collapseWs collapseWsAux
  split <;> simp

theorem collapseWs_head_of_not_space {c : Char} (cs : List Char)
    (h : isSpaceJS c = false) :
    collapseWs (c :: cs) = c :: collapseWsAux false cs := by
  conv_lhs => unfold collapseWs collapseWsAux
  rw [if_neg (by simp [h])]

theorem wordsOf_normalize_ne_nil {s : String}
    (h : normalizeDescription s ≠ "") :
    wordsOf (normalizeDescription s) ≠ [] := by
  unfold normalizeDescription at h ⊢
  have hne : collapseWs (trimChars
      (((s.data.map Char.toLower).filter (fun c => !c.isDigit)).filter isKeptChar)) ≠
      [] := by
    intro hnil
    apply h
    show String.mk _ = String.mk []
    rw [hnil]
  have ht : trimChars
      (((s.data.map Char.toLower).filter (fun c => !c.isDigit)).filter isKeptChar) ≠
      [] := by
    intro hh
    rw [hh] at hne
    exact hne rfl
  obtain ⟨c, cs, hcons⟩ := List.exists_cons_of_ne_nil ht
  have hcsp := trimChars_head_false hcons
  unfold wordsOf
  show wordsOfAux [] (collapseWs (trimChars _)) ≠ []
  rw [hcons, collapseWs_head_of_not_space _ hcsp]
  unfold wordsOfAux
  rw [if_neg (by simp [hcsp])]
  exact wordsOfAux_ne_nil _ c []

theorem areSimilar_self {s : String} (h : wordsOf s ≠ []) :
    areSimilar s s = true := by
  unfold areSimilar
  have hWne : (wordsOf s).dedup ≠ [] := by
    intro hnil
    exact h ((List.dedup_eq_nil _).mp hnil)
  have hlen0 : (wordsOf s).dedup.length ≠ 0 := by
    simpa [List.length_eq_zero] using hWne
  rw [if_neg (by simp [hlen0])]
  have hfil : (wordsOf s).dedup.filter (fun w => (wordsOf s).dedup.contains w) =
      (wordsOf s).dedup :=
    List.filter_eq_self.mpr (fun w hw => by
      simpa [List.contains, List.elem_eq_mem] using hw)
  have hun : (((wordsOf s).dedup ++ (wordsOf s).dedup).dedup) = (wordsOf s).dedup := by
    rw [List.Subset.dedup_append_right (List.Subset.refl _)]
    exact List.dedup_eq_self.mpr (List.nodup_dedup _)
  rw [hfil, hun]
  have hlen : (0 : ℚ) < ((wordsOf s).dedup.length : ℚ) := by
    have := List.length_pos.mpr hWne
    exact_mod_cast this
  simp only [div_self (ne_of_gt hlen)]
  exact decide_eq_true (by norm_num)

theorem insertIntoGroups_cons_similar {norm k : String} {t : Transaction}
    {ts : List Transaction} {rest : List (String × List Transaction)}
    (h : areSimilar norm k = true) :
    insertIntoGroups norm t ((k, ts) :: rest) = (k, ts ++ [t]) :: rest := by
  unfold insertIntoGroups
  rw [if_pos h]

theorem insertIntoGroups_nil (norm : String) (t : Transaction) :
    insertIntoGroups norm t [] = [(norm, [t])] := rfl

theorem groupBy_const_key (key : String) (hne : key ≠ "")
    (hsim : areSimilar key key = true) :
    ∀ (ts : List Transaction) (acc : List Transaction),
      (∀ t ∈ ts, normalizeDescription t.description = key) →
      ts.foldl (fun groups txn =>
        let normalized := normalizeDescription txn.description
        if normalized = "" then groups else insertIntoGroups normalized txn groups)
        [(key, acc)] = [(key, acc ++ ts)] := by
  intro ts
  induction ts with
  | nil => intro acc _; simp
  | cons t ts ih =>
    intro acc hall
    rw [List.foldl_cons]
    simp only [hall t (List.mem_cons_self ..), if_neg hne,
      insertIntoGroups_cons_similar hsim]
    rw [ih (acc ++ [t]) (fun x hx => hall x (List.mem_cons_of_mem _ hx))]
    simp

theorem groupBy_all_same (key : String) (hne : key ≠ "")
    (hsim : areSimilar key key = true) (txns : List Transaction)
    (hnil : txns ≠ [])
    (hall : ∀ t ∈ txns, normalizeDescription t.description = key) :
    groupBySimilarDescription txns = [(key, txns)] := by
  obtain ⟨t, ts, rfl⟩ := List.exists_cons_of_ne_nil hnil
  unfold groupBySimilarDescription
  rw [List.foldl_cons]
  simp only [hall t (List.mem_cons_self ..), if_neg hne, insertIntoGroups_nil]
  rw [groupBy_const_key key hne hsim ts [t]
    (fun x hx => hall x (List.mem_cons_of_mem _ hx))]
  simp

theorem insertionSort_chain30 (txns : List Transaction)
    (h : txns.Chain' (fun a b => b.date = a.date + 30)) :
    List.insertionSort (fun a b => a.date ≤ b.date) txns = txns := by
  apply List.Sorted.insertionSort_eq
  have h2 : txns.Chain' (fun a b : Transaction => a.date ≤ b.date) :=
    List.Chain'.imp (fun a b hab => by rw [hab]; omega) h
  exact List.chain'_iff_pairwise.mp h2

theorem dateIntervals_chain30 : ∀ (txns : List Transaction),
    txns.Chain' (fun a b => b.date = a.date + 30) →
    dateIntervals txns = List.replicate (txns.length - 1) 30
  | [], _ => rfl
  | [_], _ => rfl
  | a :: b :: ts, h => by
    have h1 : b.date = a.date + 30 := (List.chain'_cons.mp h).1
    have h2 := dateIntervals_chain30 (b :: ts) (List.chain'_cons.mp h).2
    show (b.date - a.date) :: dateIntervals (b :: ts) = _
    rw [h2, h1]
    have hl : (a :: b :: ts).length - 1 = ((b :: ts).length - 1) + 1 := by
      simp
    rw [hl, List.replicate_succ]
    congr 1
    omega

theorem replicate30_avg (k : ℕ) (hk : 1 ≤ k) :
    ((List.replicate k (30 : ℤ)).sum : ℚ) /
      ((List.replicate k (30 : ℤ)).length : ℚ) = 30 := by
  rw [List.sum_replicate, List.length_replicate]
  have hkq : ((k : ℚ)) ≠ 0 := by
    have : 0 < k := hk
    positivity
  rw [nsmul_eq_mul]
  push_cast
  field_simp

theorem detectFrequency_replicate_30 (k : ℕ) (hk : 1 ≤ k) :
    detectFrequency (List.replicate k 30) = some Frequency.monthly := by
  have havg := replicate30_avg k hk
  simp only [detectFrequency, havg]
  norm_num

theorem patternOfGroup_monthly (P : DetectorPrims) (hsqrt : P.sqrtQ 0 = 0)
    (key : String) (txns : List Transaction) (hlen : 3 ≤ txns.length)
    (hch : txns.Chain' (fun a b => b.date = a.date + 30)) :
    ∃ pat, patternOfGroup P key txns = some pat ∧ pat.transactions = txns ∧
      pat.frequency = Frequency.monthly ∧ pat.confidence = 1 := by
  have havg := replicate30_avg (txns.length - 1) (by omega)
  have hmap : (List.replicate (txns.length - 1) (30 : ℤ)).map
      (fun iv : ℤ => ((iv : ℚ) - 30) ^ 2) = List.replicate (txns.length - 1) (0 : ℚ) := by
    rw [List.map_replicate]
    norm_num
  simp only [patternOfGroup, if_neg (show ¬ txns.length < 3 by omega),
    insertionSort_chain30 txns hch, dateIntervals_chain30 txns hch,
    detectFrequency_replicate_30 (txns.length - 1) (by omega), havg]
  rw [hmap]
  simp only [List.sum_replicate, smul_zero, zero_div, hsqrt, sub_zero]
  norm_num

/-- C6: for every list of at least three transactions whose descriptions
all normalize to the same non-empty string and whose consecutive dates are
exactly 30 days apart, `detectRecurringTransactions` returns a pattern
consisting of exactly those transactions with frequency monthly and
confidence above 0.9 (indeed 1, using that `Math.sqrt 0 = 0`). -/
theorem c6_monthly_recurring_detected (P : DetectorPrims)
    (hsqrt : P.sqrtQ 0 = 0) (txns : List Transaction) (key : String)
    (hlen : 3 ≤ txns.length)
    (hkey : ∀ t ∈ txns, normalizeDescription t.description = key)
    (hne : key ≠ "")
    (hdates : txns.Chain' (fun a b => b.date = a.date + 30)) :
    ∃ p ∈ detectRecurringTransactions P txns,
      p.transactions = txns ∧ p.frequency = Frequency.monthly ∧
        (9 : ℚ) / 10 < p.confidence := by
  have hnil : txns ≠ [] := by
    intro h
    rw [h] at hlen
    simp at hlen
  obtain ⟨t0, ht0⟩ : ∃ t, t ∈ txns := by
    obtain ⟨t, ts, rfl⟩ := List.exists_cons_of_ne_nil hnil
    exact ⟨t, List.mem_cons_self ..⟩
  have hkey0 := hkey t0 ht0
  have hwords : wordsOf key ≠ [] := by
    rw [← hkey0]
    exact wordsOf_normalize_ne_nil (by rw [hkey0]; exact hne)
  have hsim := areSimilar_self hwords
  have hgroups := groupBy_all_same key hne hsim txns hnil hkey
  obtain ⟨pat, hpat, htx, hfreq, hconf⟩ :=
    patternOfGroup_monthly P hsqrt key txns hlen hdates
  refine ⟨pat, ?_, htx, hfreq, by rw [hconf]; norm_num⟩
  unfold detectRecurringTransactions
  rw [hgroups]
  simp only [List.filterMap_cons, List.filterMap_nil, hpat]
  simp [List.insertionSort]

set_option maxRecDepth 40000 in
/-- C6 witness: three identical-description transactions exactly 30 days
apart, evaluated concretely (with `sqrt 0 = 0` and a stand-in calendar). -/
theorem c6_monthly_recurring_witness :
    ∃ p ∈ detectRecurringTransactions ⟨fun _ => 0, fun d _ => d + 30⟩
        [{ id := "a", date := 0, description := "netflix", amount := -15,
           accountId := "acc", categoryId := none },
         { id := "b", date := 30, description := "netflix", amount := -15,
           accountId := "acc", categoryId := none },
         { id := "c", date := 60, description := "netflix", amount := -15,
           accountId := "acc", categoryId := none }],
      p.transactions =
        [{ id := "a", date := 0, description := "netflix", amount := -15,
           accountId := "acc", categoryId := none },
         { id := "b", date := 30, description := "netflix", amount := -15,
           accountId := "acc", categoryId := none },
         { id := "c", date := 60, description := "netflix", amount := -15,
           accountId := "acc", categoryId := none }] ∧
        p.frequency = Frequency.monthly ∧ (9 : ℚ) / 10 < p.confidence := by
  refine c6_monthly_recurring_detected ⟨fun _ => 0, fun d _ => d + 30⟩ rfl _
    "netflix" (by decide) ?_ (by decide) ?_
  · intro t ht
    fin_cases ht <;> with_unfolding_all decide
  · refine List.chain'_cons.mpr ⟨by decide, List.chain'_cons.mpr ⟨by decide, ?_⟩⟩
    exact List.chain'_singleton _

end BudgetIt

